import Mathlib

/-!
# Verification of the PySyft distributed pointer / promise / protocol core

Shallow embedding of the four source files of this repository:

* `src/src/syft/core/nodes/vm/service/run_class_service.py`
  (`RunClassMethodService.process`),
* `src/syft/messaging/promise.py` (`Promise.__init__`, `keep`, `is_kept`,
  `value`, `__str__`, `simplify`, `detail`),
* `src/syft/execution/protocol_execution.py`
  (`ProtocolExecution.__init__`, `execute`).

Modelling conventions:

* Python dicts (`_objects`, the store) become association lists
  `List (Nat × _)` with first-hit lookup; `put` overwrites, `remove` is
  idempotent, matching the spec of the Object Store.
* Python exceptions become an `Except` result; a raised error carries the
  state at the moment of the raise, so "no partial mutation" is the
  statement that the carried state equals the input state.
* A Python object stored in a worker's `_objects` dict is one of: a plain
  object (with an `id` and a declared type), a stored promise (the source
  reads stored promises both through `.child` and directly; the model
  conflates the wrapper and the promise it carries), or a stored plan.
* In-place mutation of a promise that is resident in the store is modelled
  by rewriting the store entry; aliasing between `self` and
  `owner._objects[ref]` is therefore represented by addressing promises
  through their store key.
* The unbounded recursion of `Promise.keep` (a fired plan's result is
  `keep`-ed on the plan's output promise, which may cascade) is bounded by
  an explicit fuel parameter; running out of fuel is a dedicated error.
-/

namespace PySyft

/-- Errors of the embedded Python code. `typeMismatch` is the `TypeError`
raised by `Promise.keep`; `keyError`, `indexError` and `attributeError` are
the corresponding Python exceptions; `notFound` is the object-store miss of
the core node (`store.get_object`); `fuel` marks exhaustion of the explicit
recursion bound (not a behaviour of the source). -/
inductive Err where
  | typeMismatch
  | keyError
  | indexError
  | attributeError
  | notFound
  | fuel
deriving DecidableEq, Repr

/-! ## Object store primitives

Modelled from the spec: the per-node Object Store is a mapping
`id → object`; `get` fails when the id is absent, `put` overwrites, and
`remove` deletes with no-op on absent keys (idempotent). The worker class
holding `_objects`, `register_obj` and `rm_obj` is not among the source
files, so these primitives follow the spec's §3 "Object Store" contract. -/

/-- Left-to-right effectful map, the shape of the source's
`for ... in ...: append` loops: stop at the first error, otherwise collect
the results in order. -/
def mapME {α β ε : Type} (f : α → Except ε β) : List α → Except ε (List β)
  | [] => .ok []
  | a :: rest =>
    match f a with
    | .error e => .error e
    | .ok y =>
      match mapME f rest with
      | .error e => .error e
      | .ok ys => .ok (y :: ys)

/-- Left-to-right option-valued map (the shape of the source's dict/list
comprehensions over fallible lookups): `none` as soon as one element
fails, otherwise the collected results in order. -/
def mapMO {α β : Type} (f : α → Option β) : List α → Option (List β)
  | [] => some []
  | a :: rest =>
    match f a with
    | none => none
    | some y =>
      match mapMO f rest with
      | none => none
      | some ys => some (y :: ys)

/-- First-hit lookup in an association-list store. -/
def lookupStore {β : Type} (s : List (Nat × β)) (k : Nat) : Option β :=
  match s with
  | [] => none
  | (k', v) :: rest => if k' = k then some v else lookupStore rest k

/-- `put` with overwrite semantics: the old binding of `k` is dropped. -/
def putStore {β : Type} (s : List (Nat × β)) (k : Nat) (v : β) : List (Nat × β) :=
  (k, v) :: s.filter (fun e => e.1 ≠ k)

/-- `remove`: deletes the binding of `k`; a no-op when `k` is absent. -/
def rmStore {β : Type} (s : List (Nat × β)) (k : Nat) : List (Nat × β) :=
  s.filter (fun e => e.1 ≠ k)

/-! ## `RunClassMethodService.process`
(`src/src/syft/core/nodes/vm/service/run_class_service.py`)

The service resolves the receiver and the positional arguments against the
node's store (a `Pointer` is replaced by `store.get_object(id_at_location)`,
anything else passes through), calls the dispatched method, and stores the
result under the caller-chosen `id_at_location` of the message.  `V` is the
type of stored objects; the dispatch table `frameworks` is an external
collaborator and is a parameter. -/

section RunClassService

variable {V : Type}

/-- An argument of a `RunClassMethodMessage`: either a `Pointer` (carrying
`location` and `id_at_location`) or an already-local object. -/
inductive ArgVal (V : Type) where
  | ptr (location : Nat) (id_at_location : Nat)
  | obj (o : V)
deriving DecidableEq, Repr

/-- `RunClassMethodMessage`: the receiver (`_self`), positional `args`,
keyword `kwargs`, the dispatch `path` and the result id `id_at_location`. -/
structure RunClassMethodMessage (V : Type) where
  _self : ArgVal V
  args : List (ArgVal V)
  kwargs : List (String × ArgVal V)
  path : String
  id_at_location : Nat
deriving DecidableEq, Repr

/-- A node as seen by `RunClassMethodService.process`: its object store and
its `frameworks` dispatch table (external collaborator, here a total
function from path, receiver, positional and keyword arguments to the
result). -/
structure NodeState (V : Type) where
  store : List (Nat × V)
  frameworks : String → V → List V → List (String × V) → V

/-- Pointer resolution of one argument: a `Pointer` is replaced by
`node.store.get_object(arg.id_at_location)` (failing with `NotFound` when
the id is absent), a non-pointer argument passes through unchanged. -/
def resolveArg (store : List (Nat × V)) : ArgVal V → Except Err V
  | .ptr _ idAt =>
    match lookupStore store idAt with
    | some o => .ok o
    | none => .error .notFound
  | .obj o => .ok o

/-- `RunClassMethodService.process`.  Faithful to the source: the local
`kwargs_with_objects` dict starts empty and `msg.kwargs` is never read
(the line `kwargs_with_pointers = msg.kwargs` is commented out in the
source), so the step-1c loop iterates over an empty dict and the method is
always called with empty keyword arguments.  An error carries the node
state at the raise; the store is only written in step 3. -/
def process (node : NodeState V) (msg : RunClassMethodMessage V) :
    Except (Err × NodeState V) (NodeState V) :=
  let self_possibly_pointer := msg._self
  let args_with_pointers := msg.args
  -- kwargs_with_pointers = msg.kwargs  (commented out in the source)
  let result_id_at_location := msg.id_at_location
  let kwargs_with_objects : List (String × V) := []
  -- Step 1a: resolve the receiver
  match resolveArg node.store self_possibly_pointer with
  | .error e => .error (e, node)
  | .ok self_is_object =>
    -- Step 1b: resolve each positional argument in order
    match mapME (resolveArg node.store) args_with_pointers with
    | .error e => .error (e, node)
    | .ok args_with_objects =>
      -- Step 1c of the source iterates over `kwargs_with_objects.items()`,
      -- which is the empty dict built above, so it is a no-op.
      -- Step 2: execute the method
      let result :=
        node.frameworks msg.path self_is_object args_with_objects kwargs_with_objects
      -- Step 3: store the result (overwrite semantics)
      .ok { node with
              store := putStore node.store result_id_at_location result }

end RunClassService

/-! ## Promise / Plan world (`src/syft/messaging/promise.py`)

Objects kept on promises and produced by fired plans carry an `id` and a
declared type (`obj.id`, `obj.type()`); types are numbered by `Nat`. -/

/-- A plain stored object: its `id` and its declared type (`obj.type()`). -/
structure PlainObj where
  id : Nat
  ty : Nat
deriving DecidableEq, Repr

/-- The attributes `Promise.__init__` assigns on the instance.  The field
`obj_id` records whether an `obj_id` *attribute* is present on the
instance (`none` = attribute absent, so reading it raises
`AttributeError`); `__init__` receives an `obj_id` argument but never
assigns `self.obj_id`, so every constructed promise has `obj_id = none`.
`plans` is the Python set of waiting plan ids, modelled as a list in
iteration order (the spec's §9 notes the source's set iteration order is
unspecified). -/
structure PromiseData where
  owner : Option Nat
  _id : Nat
  obj_id : Option Nat
  queue_obj_ids : List Nat
  obj_type : Option Nat
  plans : List Nat
deriving DecidableEq, Repr

/-- The parts of a Plan that `Promise.keep` reads: the ordered `arg_ids`,
the `promised_args` dict (argument position ↦ promise id, an association
list in insertion order), and the output promise id `promise_out_id`.
The Plan class itself is not among the source files; these fields are
taken from the spec's §3 "Plan" data model, which matches the accesses in
`Promise.keep`. -/
structure PlanData where
  arg_ids : List Nat
  promised_args : List (Nat × Nat)
  promise_out_id : Nat
deriving DecidableEq, Repr

/-- An entry of a worker's `_objects` store: a plain object, a stored
promise (the source reads stored promises both as
`_objects[promise_id].child` and directly as `_objects[...].keep(...)`;
the model conflates the wrapper and the promise it carries), or a stored
plan. -/
inductive SObj where
  | plain (o : PlainObj)
  | prom (p : PromiseData)
  | plan (pl : PlanData)
deriving DecidableEq, Repr

/-- A worker's `_objects` store. -/
abbrev Store := List (Nat × SObj)

/-- Ghost trace events recorded by the model of `Promise.keep`:
`append pref oid` = `queue_obj_ids.append(oid)` on the promise stored at
`pref`; `reg oid` = `owner.register_obj(obj)` storing under `oid`;
`rm oid` = `owner.rm_obj(oid)`; `pop pref oid` = `queue_obj_ids.pop(0)`
returning `oid` on the promise stored at `pref`; `fired planId` = the plan
body was invoked. -/
inductive Ev where
  | append (pref : Nat) (oid : Nat)
  | reg (oid : Nat)
  | rm (oid : Nat)
  | pop (pref : Nat) (oid : Nat)
  | fired (planId : Nat)
deriving DecidableEq, Repr

/-- `Promise.__init__`.  `idp` stands for `sy.ID_PROVIDER.pop()` (external
identifier allocator), used when `id` is `None`.  Note that the `obj_id`
argument is accepted but never assigned to the instance, and the queue
starts empty; a `None` `plans` argument becomes an empty set. -/
def mkPromise (idp : Nat) (owner : Option Nat) (id : Option Nat)
    (obj_id : Option Nat) (obj_type : Option Nat) (plans : Option (List Nat)) :
    PromiseData :=
  { owner := owner
    _id := id.getD idp
    obj_id := none
    queue_obj_ids := []
    obj_type := obj_type
    plans := plans.getD [] }

/-- `Promise.is_kept`: the queue of fulfilled object ids is non-empty. -/
def is_kept (p : PromiseData) : Bool :=
  p.queue_obj_ids ≠ []

/-- Modelled from the spec: `Plan.has_args_fulfilled()` (the Plan class is
not among the source files) holds iff every position in `promised_args`
has its referenced Promise currently kept.  `none` when a referenced id is
absent from the store or not a stored promise (the Python attribute/key
error). -/
def has_args_fulfilled (s : Store) (pl : PlanData) : Option Bool :=
  match mapMO (fun pa =>
      match lookupStore s pa.2 with
      | some (.prom pr) => some (is_kept pr)
      | _ => none) pl.promised_args with
  | none => none
  | some kepts => some (kepts.all (· = true))

/-- Argument collection of a firing plan (`Promise.keep`, the
`for i, arg_id in enumerate(plan.arg_ids)` loop): a position in
`promised_args` reads the object stored under the *front* of the
referenced promise's queue (`...queue_obj_ids[0]`), any other position
reads the object stored under `arg_ids[i]`. -/
def collectArgs (s : Store) (pl : PlanData) : Except Err (List SObj) :=
  mapME (fun ia =>
    match pl.promised_args.lookup ia.1 with
    | some promise_id =>
      match lookupStore s promise_id with
      | some (.prom pr) =>
        match pr.queue_obj_ids.head? with
        | some front =>
          match lookupStore s front with
          | some o => .ok o
          | none => .error .keyError
        | none => .error .indexError
      | some _ => .error .attributeError
      | none => .error .keyError
    | none =>
      match lookupStore s ia.2 with
      | some o => .ok o
      | none => .error .keyError)
    pl.arg_ids.enum

/-- Queue consumption after a firing (`Promise.keep`, the
`for promise_id in plan.promised_args.values()` loop): pop the front of
each referenced promise's queue and `rm_obj` the popped id from the store.
An error carries the store at the raise (the pops already performed
stay). -/
def popConsumed (s : Store) (vals : List Nat) :
    Except (Err × Store) (Store × List Ev) :=
  match vals with
  | [] => .ok (s, [])
  | promise_id :: rest =>
    match lookupStore s promise_id with
    | some (.prom pr) =>
      match pr.queue_obj_ids with
      | [] => .error (.indexError, s)
      | to_rm :: q =>
        let s1 := putStore s promise_id (.prom { pr with queue_obj_ids := q })
        let s2 := rmStore s1 to_rm
        match popConsumed s2 rest with
        | .ok (s', evs) => .ok (s', Ev.pop promise_id to_rm :: Ev.rm to_rm :: evs)
        | .error e => .error e
    | some _ => .error (.attributeError, s)
    | none => .error (.keyError, s)

/-- One plan firing inside `Promise.keep`: collect the arguments, invoke
the plan body (`ap`, the external callable behind `plan(*args)`), then
destructively consume the promised queue fronts.  The recursive
`keep` on the plan's output promise is performed by the caller
(`fireLoop`). -/
def fireOne (ap : PlanData → List SObj → PlainObj) (s : Store)
    (planId : Nat) (pl : PlanData) :
    Except (Err × Store) (Store × List Ev × PlainObj) :=
  match collectArgs s pl with
  | .error e => .error (e, s)
  | .ok args =>
    let result := ap pl args
    match popConsumed s (pl.promised_args.map (·.2)) with
    | .ok (s', evs) => .ok (s', Ev.fired planId :: evs, result)
    | .error e => .error e

/-- Append `oid` to the queue of the promise stored at `ref`.  When the
store slot at `ref` no longer holds a promise (it was clobbered by the
`register_obj` of an object whose id equals `ref`), the Python append
still happens on the now-unreachable promise object; the model drops it,
which is observationally equal for every later store access. -/
def appendQueue (s : Store) (ref : Nat) (oid : Nat) : Store :=
  match lookupStore s ref with
  | some (.prom pr) =>
    putStore s ref (.prom { pr with queue_obj_ids := pr.queue_obj_ids ++ [oid] })
  | _ => s

mutual

/-- `Promise.keep(obj)` on the promise stored at `selfRef`, with plan
application `ap` and recursion bound `fuel`.  Steps of the source:
raise `TypeError` when `obj.type() != self.obj_type`; `register_obj(obj)`
when `self.id in owner._objects`; append `obj.id` to the queue; run the
waiting-plans loop; return the original `obj`. -/
def keep (ap : PlanData → List SObj → PlainObj) :
    Nat → Store → Nat → PlainObj → Except (Err × Store) (Store × List Ev × PlainObj)
  | 0, s, _, _ => .error (.fuel, s)
  | fuel + 1, s, selfRef, obj =>
    match lookupStore s selfRef with
    | some (.prom p) =>
      if some obj.ty ≠ p.obj_type then .error (.typeMismatch, s)
      else
        let s1 :=
          if (lookupStore s p._id).isSome
          then putStore s obj.id (.plain obj) else s
        let evs1 : List Ev :=
          if (lookupStore s p._id).isSome then [Ev.reg obj.id] else []
        let s2 := appendQueue s1 selfRef obj.id
        match fireLoop ap fuel s2 p.plans with
        | .error e => .error e
        | .ok (s3, evs3) =>
          .ok (s3, evs1 ++ [Ev.append selfRef obj.id] ++ evs3, obj)
    | some _ => .error (.attributeError, s)
    | none => .error (.keyError, s)

/-- The `for plan_id in self.plans` loop of `Promise.keep`: look the plan
up in the store, and when `has_args_fulfilled()` holds, fire it and
recursively `keep` the result on the plan's output promise
(`owner._objects[plan.promise_out_id].keep(result)`). -/
def fireLoop (ap : PlanData → List SObj → PlainObj) :
    Nat → Store → List Nat → Except (Err × Store) (Store × List Ev)
  | _, s, [] => .ok (s, [])
  | 0, s, _ :: _ => .error (.fuel, s)
  | fuel + 1, s, plan_id :: restPlans =>
    match lookupStore s plan_id with
    | some (.plan pl) =>
      match has_args_fulfilled s pl with
      | some true =>
        match fireOne ap s plan_id pl with
        | .error e => .error e
        | .ok (s1, evs1, result) =>
          match keep ap fuel s1 pl.promise_out_id result with
          | .error e => .error e
          | .ok (s2, evs2, _) =>
            match fireLoop ap fuel s2 restPlans with
            | .error e => .error e
            | .ok (s3, evs3) => .ok (s3, evs1 ++ evs2 ++ evs3)
      | some false => fireLoop ap fuel s restPlans
      | none => .error (.keyError, s)
    | some _ => .error (.attributeError, s)
    | none => .error (.keyError, s)

end

/-- `Promise.value()` on the promise stored at `selfRef`: `None` when the
queue is empty (non-blocking poll); otherwise pop the front id, read the
object stored under it (the pop has already happened when that read
raises), `rm_obj` it, and return it. -/
def value (s : Store) (selfRef : Nat) :
    Except (Err × Store) (Store × Option SObj) :=
  match lookupStore s selfRef with
  | some (.prom p) =>
    match p.queue_obj_ids with
    | [] => .ok (s, none)
    | ret_id :: restq =>
      let s1 := putStore s selfRef (.prom { p with queue_obj_ids := restq })
      match lookupStore s1 ret_id with
      | some ret => .ok (rmStore s1 ret_id, some ret)
      | none => .error (.keyError, s1)
  | some _ => .error (.attributeError, s)
  | none => .error (.keyError, s)

/-- `Promise.__str__`: reads `self.id`, `self.obj_id` and
`len(self.plans)`.  Reading the `obj_id` attribute raises
`AttributeError` when it was never assigned. -/
def strPromise (p : PromiseData) : Except Err String :=
  match p.obj_id with
  | none => .error .attributeError
  | some oid =>
    .ok ("<Promise(" ++ toString p._id ++ ") promises Obj(id:" ++ toString oid
      ++ ") blocking " ++ toString p.plans.length ++ " plans>")

/-- `Promise.simplify`: returns the tuple
`(promise.id, promise.obj_id, sy.serde._simplify(promise.plans))`, where
`simplifyPlans` stands for the external `sy.serde._simplify`.  Reading
`promise.obj_id` raises `AttributeError` when the attribute was never
assigned. -/
def simplify (simplifyPlans : List Nat → Nat) (p : PromiseData) :
    Except Err (Nat × Nat × Nat) :=
  match p.obj_id with
  | none => .error .attributeError
  | some oid => .ok (p._id, oid, simplifyPlans p.plans)

/-- `Promise.detail`: reads `promise_tuple[3]` (an `IndexError` when the
tuple is shorter) and calls
`Promise(promise_tuple[0], promise_tuple[1], set(_detail(promise_tuple[3])))`,
whose *positional* parameters are `owner`, `id` and `obj_id` — so the
wire fields are bound to `owner`/`id`/`obj_id`, and `obj_type`/`plans` are
left at their defaults.  The simplified tuple is modelled as a list of
numbers; the detailed plan set (an external `sy.serde._detail`) is
abstracted into the third element. -/
def detail (idp : Nat) (promise_tuple : List Nat) : Except Err PromiseData :=
  match promise_tuple.get? 3 with
  | none => .error .indexError
  | some w3 =>
    .ok (mkPromise idp (promise_tuple.get? 0) (promise_tuple.get? 1)
      (some w3) none none)

/-! ## `ProtocolExecution` (`src/syft/execution/protocol_execution.py`)

`Role._execute_action` lives in `role.py`, which is not among the source
files; it is the external step function `ea` below — modelled from the
spec: it executes one action against the placeholder state, or raises
`PlaceholderNotInstantiatedError` (`none`) when the action reads a
placeholder that has no value yet.  Actions are an abstract type `A`. -/

section ProtocolExecution

variable {V A : Type}

/-- A placeholder: an id and an optionally bound value (`child`). -/
structure Placeholder (V : Type) where
  id : Nat
  child : Option V
deriving DecidableEq, Repr

/-- The placeholder table of a role or of an execution. -/
abbrev PhMap (V : Type) := List (Nat × Placeholder V)

/-- A `Role` template: ordered actions, placeholders, declared outputs. -/
structure Role (V A : Type) where
  actions : List A
  placeholders : PhMap V
  output_placeholder_ids : List Nat

/-- The mutable state of a `ProtocolExecution`: its private placeholder
copies and the cursor `_next_action_index`. -/
structure ExecSt (V : Type) where
  phs : PhMap V
  idx : Nat
deriving DecidableEq, Repr

/-- `ProtocolExecution.__init__`: copy each of the role's placeholders,
clear the copy's `child` to `None`, keep its id; the cursor starts at 0. -/
def initExec (role : Role V A) : ExecSt V :=
  { phs := role.placeholders.map fun e => (e.1, { id := e.2.id, child := none })
    idx := 0 }

/-- The `for action in self.role.actions[self._next_action_index:]` loop of
`ProtocolExecution.execute`: run the remaining actions in order,
incrementing the cursor after each success; on
`PlaceholderNotInstantiatedError` stop at once with `false` and the cursor
still at the failing action. -/
def runActions (ea : PhMap V → A → Option (PhMap V)) :
    List A → PhMap V → Nat → PhMap V × Nat × Bool
  | [], phs, idx => (phs, idx, true)
  | a :: rest, phs, idx =>
    match ea phs a with
    | some phs' => runActions ea rest phs' (idx + 1)
    | none => (phs, idx, false)

/-- `ProtocolExecution.execute`: run the remaining actions; a blocked run
returns `(false, None)`; a completed run returns `(true, None)` when
`output_placeholder_ids` is empty and otherwise `(true, tuple of the
output placeholders' children)`.  The outer `Option` is the `KeyError` of
`self.placeholders[output_id]` on an unknown output id. -/
def execute (ea : PhMap V → A → Option (PhMap V)) (role : Role V A)
    (st : ExecSt V) :
    Option (ExecSt V × Bool × Option (List (Option V))) :=
  match runActions ea (role.actions.drop st.idx) st.phs st.idx with
  | (phs', idx', false) => some (⟨phs', idx'⟩, false, none)
  | (phs', idx', true) =>
    if role.output_placeholder_ids = [] then
      some (⟨phs', idx'⟩, true, none)
    else
      match mapMO (lookupStore phs') role.output_placeholder_ids with
      | some output_placeholders =>
        some (⟨phs', idx'⟩, true, some (output_placeholders.map (·.child)))
      | none => none

end ProtocolExecution

/-! ## Ghost-trace accounting used to state the at-most-once consumption
invariant of `Promise.keep` (claim C3). -/

/-- The ids appended (in order) to the queue of the promise stored at
`pref` during a trace. -/
def appendsOf (tr : List Ev) (pref : Nat) : List Nat :=
  tr.filterMap fun e =>
    match e with
    | .append p oid => if p = pref then some oid else none
    | _ => none

/-- The number of front-pops performed on the queue of the promise stored
at `pref` during a trace. -/
def popsOf (tr : List Ev) (pref : Nat) : Nat :=
  (tr.filter fun e =>
    match e with
    | .pop p _ => p = pref
    | _ => false).length

/-- Whether a trace registers or removes a store entry under key `k`
(`register_obj` / `rm_obj`); queue accounting is only claimed for keys the
trace never rebinds or deletes. -/
def touches (tr : List Ev) (k : Nat) : Bool :=
  tr.any fun e =>
    match e with
    | .reg oid => oid = k
    | .rm oid => oid = k
    | _ => false

/-- FIFO conservation of a `keep` cascade for the promise queues: every
promise slot the trace neither rebinds nor deletes is still a promise, and
its final queue is its initial queue extended by the trace's appends with
the trace's pops dropped from the front — so each queue entry is consumed
by at most one pop, and no plan firing ever consumes the same queue entry
twice. -/
def Cons (s s' : Store) (tr : List Ev) : Prop :=
  ∀ pref p, lookupStore s pref = some (.prom p) → touches tr pref = false →
    ∃ p', lookupStore s' pref = some (.prom p') ∧
      p'.queue_obj_ids =
        (p.queue_obj_ids ++ appendsOf tr pref).drop (popsOf tr pref) ∧
      popsOf tr pref ≤ p.queue_obj_ids.length + (appendsOf tr pref).length

/-- Separation hypothesis for the queue-consumption lemma: no front of any
queue referenced by `vals` is itself one of the promise keys in `vals`
(so an `rm_obj` of a consumed object id never deletes one of the promises
being popped). -/
def FrontsSep (s : Store) (vals : List Nat) : Prop :=
  ∀ v ∈ vals, ∀ pr, lookupStore s v = some (.prom pr) →
    ∀ f, pr.queue_obj_ids.head? = some f → f ∉ vals

/-! ## Concrete instances used by the closed theorems and witnesses -/

/-- A plan application standing for an arbitrary external plan body. -/
def apNone : PlanData → List SObj → PlainObj := fun _ _ => ⟨0, 0⟩

/-- A plan body producing the object `id 11, type 1`. -/
def apW : PlanData → List SObj → PlainObj := fun _ _ => ⟨11, 1⟩

/-- A promise of a type-0 object, stored under its own id 5, with plan 77
waiting on it. -/
def prP : PromiseData :=
  { owner := none, _id := 5, obj_id := none, queue_obj_ids := [],
    obj_type := some 0, plans := [77] }

/-- A promise of a type-1 object, stored under its own id 6. -/
def prQ : PromiseData :=
  { owner := none, _id := 6, obj_id := none, queue_obj_ids := [],
    obj_type := some 1, plans := [] }

/-- A plan with a single, promised argument position referencing the
promise at key 5, and output promise at key 6. -/
def plW : PlanData :=
  { arg_ids := [9], promised_args := [(0, 5)], promise_out_id := 6 }

/-- A worker store with the two promises and the plan above. -/
def sW : Store := [(5, .prom prP), (6, .prom prQ), (77, .plan plW)]

/-- A promise whose own id (1) differs from its store key (5). -/
def prK : PromiseData :=
  { owner := none, _id := 1, obj_id := none, queue_obj_ids := [],
    obj_type := some 0, plans := [] }

/-- A store holding `prK` under key 5 and nothing else. -/
def sK : Store := [(5, .prom prK)]

/-- A store with a kept promise (queue front 9) and the object 9. -/
def sC : Store :=
  [(5, .prom { prP with queue_obj_ids := [9] }), (9, .plain ⟨9, 0⟩)]

/-- A dispatch table that reports whether it was called with keyword
arguments: result 99 on an empty kwargs dict, 100 otherwise. -/
def frameworksKw : String → Nat → List Nat → List (String × Nat) → Nat :=
  fun _ _ _ ks => if ks.isEmpty then 99 else 100

/-- A node whose store holds `42` under id 7. -/
def nodeKw : NodeState Nat := { store := [(7, 42)], frameworks := frameworksKw }

/-- A message whose keyword argument is a pointer to the absent id 999:
resolving it per the spec would fail with `NotFound`. -/
def msgKw : RunClassMethodMessage Nat :=
  { _self := .obj 1, args := [.ptr 0 7], kwargs := [("k", .ptr 0 999)],
    path := "m", id_at_location := 3 }

/-- A message whose receiver is a pointer to the absent id 999. -/
def msgNF : RunClassMethodMessage Nat :=
  { _self := .ptr 0 999, args := [], kwargs := [], path := "m",
    id_at_location := 3 }

/-- A step function over `Nat`-coded actions: action 0 succeeds without
touching the placeholders, every other action raises
`PlaceholderNotInstantiatedError`. -/
def eaW : PhMap Nat → Nat → Option (PhMap Nat) :=
  fun phs a => if a = 0 then some phs else none

/-- A two-action role whose second action is blocked under `eaW`. -/
def roleW : Role Nat Nat :=
  { actions := [0, 1], placeholders := [], output_placeholder_ids := [] }

/-- A role with no actions and one output placeholder (key 4). -/
def roleW2 : Role Nat Nat :=
  { actions := [], placeholders := [(4, ⟨4, some 7⟩)],
    output_placeholder_ids := [4] }

/-- An execution state of `roleW2` whose cursor is at the end of the
action list and whose output placeholder is bound to 7. -/
def stW2 : ExecSt Nat := { phs := [(4, ⟨4, some 7⟩)], idx := 0 }

/-! # Theorems -/

theorem lookupStore_putStore_self {β : Type} (s : List (Nat × β)) (k : Nat) (v : β) :
    lookupStore (putStore s k v) k = some v := by
  simp [putStore, lookupStore]

theorem lookupStore_filter_ne {β : Type} (s : List (Nat × β)) (k k' : Nat)
    (h : k ≠ k') :
    lookupStore (s.filter (fun e => e.1 ≠ k)) k' = lookupStore s k' := by
  induction s with
  | nil => simp [lookupStore]
  | cons e rest ih =>
    simp only [decide_not] at ih
    by_cases he : e.1 = k
    · have hne : ¬ e.1 = k' := by
        rw [he]; exact h
      simp [List.filter_cons, he, lookupStore, hne, ih, h]
    · by_cases he' : e.1 = k'
      · simp [List.filter_cons, he, lookupStore, he', h.symm]
      · simp [List.filter_cons, he, lookupStore, he', ih]

theorem lookupStore_putStore_ne {β : Type} (s : List (Nat × β)) (k k' : Nat) (v : β)
    (h : k ≠ k') : lookupStore (putStore s k v) k' = lookupStore s k' := by
  simp only [putStore, lookupStore, h, if_false]
  exact lookupStore_filter_ne s k k' h

theorem lookupStore_rmStore_self {β : Type} (s : List (Nat × β)) (k : Nat) :
    lookupStore (rmStore s k) k = none := by
  induction s with
  | nil => simp [rmStore, lookupStore]
  | cons e rest ih =>
    simp only [rmStore, decide_not] at ih
    by_cases he : e.1 = k
    · simpa [rmStore, List.filter_cons, he] using ih
    · simp only [rmStore, List.filter_cons]
      simp [lookupStore, he, ih]

theorem lookupStore_rmStore_ne {β : Type} (s : List (Nat × β)) (k k' : Nat)
    (h : k ≠ k') : lookupStore (rmStore s k) k' = lookupStore s k' := by
  simpa [rmStore] using lookupStore_filter_ne s k k' h

/-! ## Trace accounting lemmas -/

theorem appendsOf_append (t1 t2 : List Ev) (pref : Nat) :
    appendsOf (t1 ++ t2) pref = appendsOf t1 pref ++ appendsOf t2 pref := by
  simp [appendsOf, List.filterMap_append]

theorem popsOf_append (t1 t2 : List Ev) (pref : Nat) :
    popsOf (t1 ++ t2) pref = popsOf t1 pref + popsOf t2 pref := by
  simp [popsOf, List.filter_append]

theorem touches_append (t1 t2 : List Ev) (k : Nat) :
    touches (t1 ++ t2) k = (touches t1 k || touches t2 k) := by
  simp [touches, List.any_append]

theorem appendsOf_fired (tr : List Ev) (n pref : Nat) :
    appendsOf (Ev.fired n :: tr) pref = appendsOf tr pref := by
  simp [appendsOf]

theorem popsOf_fired (tr : List Ev) (n pref : Nat) :
    popsOf (Ev.fired n :: tr) pref = popsOf tr pref := by
  simp [popsOf]

theorem touches_fired (tr : List Ev) (n k : Nat) :
    touches (Ev.fired n :: tr) k = touches tr k := by
  simp [touches]

/-! ## The FIFO conservation relation -/

theorem Cons_nil (s : Store) : Cons s s [] := by
  intro pref p hp _
  exact ⟨p, hp, by simp [appendsOf, popsOf], by simp [popsOf]⟩

theorem Cons_trans {s1 s2 s3 : Store} {t1 t2 : List Ev}
    (h1 : Cons s1 s2 t1) (h2 : Cons s2 s3 t2) : Cons s1 s3 (t1 ++ t2) := by
  intro pref p hp htouch
  rw [touches_append, Bool.or_eq_false_iff] at htouch
  obtain ⟨p1, hp1, he1, hle1⟩ := h1 pref p hp htouch.1
  obtain ⟨p2, hp2, he2, hle2⟩ := h2 pref p1 hp1 htouch.2
  have hlen1 : p1.queue_obj_ids.length =
      p.queue_obj_ids.length + (appendsOf t1 pref).length - popsOf t1 pref := by
    rw [he1, List.length_drop, List.length_append]
  have hle1' : popsOf t1 pref ≤ (p.queue_obj_ids ++ appendsOf t1 pref).length := by
    rw [List.length_append]; exact hle1
  refine ⟨p2, hp2, ?_, ?_⟩
  · rw [he2, he1, appendsOf_append, popsOf_append, ← List.append_assoc,
      ← List.drop_append_of_le_length hle1', List.drop_drop]
  · rw [appendsOf_append, popsOf_append, List.length_append]
    omega

theorem Cons_fired {s s' : Store} {tr : List Ev} (n : Nat)
    (h : Cons s s' tr) : Cons s s' (Ev.fired n :: tr) := by
  intro pref p hp htouch
  rw [touches_fired] at htouch
  obtain ⟨p', hp', he, hle⟩ := h pref p hp htouch
  exact ⟨p', hp', by rwa [appendsOf_fired, popsOf_fired],
    by rwa [appendsOf_fired, popsOf_fired]⟩

/-- One pop-and-remove step of `popConsumed` satisfies the conservation
relation. -/
theorem Cons_pop_step {s : Store} {promise_id to_rm : Nat} {pr : PromiseData}
    {q : List Nat}
    (hpr : lookupStore s promise_id = some (.prom pr))
    (hq : pr.queue_obj_ids = to_rm :: q) :
    Cons s (rmStore (putStore s promise_id
        (.prom { pr with queue_obj_ids := q })) to_rm)
      [Ev.pop promise_id to_rm, Ev.rm to_rm] := by
  intro pref p hp htouch
  have hto : to_rm ≠ pref := by
    intro hcontra
    simp [touches, hcontra] at htouch
  by_cases hpp : promise_id = pref
  · subst hpp
    have hpeq : p = pr := by
      rw [hp] at hpr
      simpa using hpr
    subst hpeq
    refine ⟨{ p with queue_obj_ids := q }, ?_, ?_, ?_⟩
    · rw [lookupStore_rmStore_ne _ _ _ hto, lookupStore_putStore_self]
    · simp [appendsOf, popsOf, hq]
    · simp [popsOf, hq]
      omega
  · refine ⟨p, ?_, ?_, ?_⟩
    · rw [lookupStore_rmStore_ne _ _ _ hto, lookupStore_putStore_ne _ _ _ _ hpp, hp]
    · simp [appendsOf, popsOf, hpp]
    · simp [popsOf, hpp]

theorem popConsumed_cons :
    ∀ (vals : List Nat) (s s' : Store) (evs : List Ev),
      popConsumed s vals = .ok (s', evs) → Cons s s' evs := by
  intro vals
  induction vals with
  | nil =>
    intro s s' evs h
    simp only [popConsumed] at h
    cases h
    exact Cons_nil s
  | cons promise_id rest ih =>
    intro s s' evs h
    match hpr : lookupStore s promise_id with
    | none => simp [popConsumed, hpr] at h
    | some (.plain o') => simp [popConsumed, hpr] at h
    | some (.plan pl) => simp [popConsumed, hpr] at h
    | some (.prom pr) =>
      match hq : pr.queue_obj_ids with
      | [] => simp [popConsumed, hpr, hq] at h
      | to_rm :: q =>
        simp only [popConsumed, hpr, hq] at h
        match hrec : popConsumed (rmStore (putStore s promise_id
            (SObj.prom { pr with queue_obj_ids := q })) to_rm) rest with
        | .error e => simp [hrec] at h
        | .ok (s'', evs'') =>
          simp only [hrec] at h
          obtain ⟨rfl, rfl⟩ : s'' = s' ∧ Ev.pop promise_id to_rm :: Ev.rm to_rm :: evs'' = evs := by
            simpa using h
          have hstep := Cons_pop_step hpr hq
          have htail := ih _ _ _ hrec
          exact Cons_trans hstep htail

theorem fireOne_cons {ap : PlanData → List SObj → PlainObj} {s s' : Store}
    {planId : Nat} {pl : PlanData} {evs : List Ev} {r : PlainObj}
    (h : fireOne ap s planId pl = .ok (s', evs, r)) : Cons s s' evs := by
  match hargs : collectArgs s pl with
  | .error e => simp [fireOne, hargs] at h
  | .ok args =>
    match hpops : popConsumed s (pl.promised_args.map (·.2)) with
    | .error e => simp [fireOne, hargs, hpops] at h
    | .ok (s'', evs'') =>
      simp only [fireOne, hargs, hpops] at h
      obtain ⟨rfl, rfl, rfl⟩ :
          s'' = s' ∧ Ev.fired planId :: evs'' = evs ∧ ap pl args = r := by
        simpa using h
      exact Cons_fired _ (popConsumed_cons _ _ _ _ hpops)

theorem appendQueue_of_prom {s : Store} {ref : Nat} {pr : PromiseData}
    (h : lookupStore s ref = some (.prom pr)) (oid : Nat) :
    appendQueue s ref oid =
      putStore s ref (.prom { pr with queue_obj_ids := pr.queue_obj_ids ++ [oid] }) := by
  simp [appendQueue, h]

theorem appendQueue_lookup_ne {s : Store} {ref pref : Nat} (oid : Nat)
    (h : ref ≠ pref) :
    lookupStore (appendQueue s ref oid) pref = lookupStore s pref := by
  cases hl : lookupStore s ref with
  | none => simp [appendQueue, hl]
  | some o =>
    cases o with
    | prom pr => simp [appendQueue, hl, lookupStore_putStore_ne _ _ _ _ h]
    | plain o' => simp [appendQueue, hl]
    | plan pl => simp [appendQueue, hl]

/-- The register-and-append prefix of `Promise.keep` satisfies the
conservation relation. -/
theorem Cons_keep_core {s : Store} {selfRef : Nat} {p : PromiseData} (obj : PlainObj)
    (hp : lookupStore s selfRef = some (.prom p)) :
    Cons s
      (appendQueue (if (lookupStore s p._id).isSome
          then putStore s obj.id (.plain obj) else s) selfRef obj.id)
      ((if (lookupStore s p._id).isSome then [Ev.reg obj.id] else []) ++
        [Ev.append selfRef obj.id]) := by
  by_cases hreg : (lookupStore s p._id).isSome
  · simp only [hreg, if_true]
    intro pref p0 hp0 htouch
    have hobj : obj.id ≠ pref := by
      intro hcontra
      simp [touches, hcontra] at htouch
    by_cases hsp : selfRef = pref
    · subst hsp
      have hp0p : p0 = p := by
        rw [hp] at hp0
        simpa using hp0.symm
      subst hp0p
      have hs1 : lookupStore (putStore s obj.id (SObj.plain obj)) selfRef
          = some (.prom p0) := by
        rw [lookupStore_putStore_ne _ _ _ _ hobj, hp]
      rw [appendQueue_of_prom hs1]
      refine ⟨{ p0 with queue_obj_ids := p0.queue_obj_ids ++ [obj.id] },
        lookupStore_putStore_self _ _ _, ?_, ?_⟩
      · simp [appendsOf, popsOf]
      · simp [popsOf]
    · rw [appendQueue_lookup_ne _ hsp]
      refine ⟨p0, ?_, ?_, ?_⟩
      · rw [lookupStore_putStore_ne _ _ _ _ hobj, hp0]
      · simp [appendsOf, popsOf, hsp]
      · simp [popsOf]
  · have hreg' : (lookupStore s p._id).isSome = false := by
      simpa using hreg
    simp only [hreg', Bool.false_eq_true, if_false]
    intro pref p0 hp0 _
    by_cases hsp : selfRef = pref
    · subst hsp
      have hp0p : p0 = p := by
        rw [hp] at hp0
        simpa using hp0.symm
      subst hp0p
      rw [appendQueue_of_prom hp]
      refine ⟨{ p0 with queue_obj_ids := p0.queue_obj_ids ++ [obj.id] },
        lookupStore_putStore_self _ _ _, ?_, ?_⟩
      · simp [appendsOf, popsOf]
      · simp [popsOf]
    · rw [appendQueue_lookup_ne _ hsp]
      refine ⟨p0, hp0, ?_, ?_⟩
      · simp [appendsOf, popsOf, hsp]
      · simp [popsOf]

/-- FIFO conservation of the full `keep` cascade and of the waiting-plans
loop, for every fuel bound. -/
theorem keep_fireLoop_cons (ap : PlanData → List SObj → PlainObj) :
    ∀ fuel : Nat,
      (∀ s selfRef obj s' tr o,
        keep ap fuel s selfRef obj = .ok (s', tr, o) → Cons s s' tr) ∧
      (∀ plans s s' tr,
        fireLoop ap fuel s plans = .ok (s', tr) → Cons s s' tr) := by
  intro fuel
  induction fuel with
  | zero =>
    constructor
    · intro s selfRef obj s' tr o h
      simp [keep] at h
    · intro plans s s' tr h
      match plans with
      | [] =>
        obtain ⟨rfl, rfl⟩ : s = s' ∧ ([] : List Ev) = tr := by
          simpa [fireLoop] using h
        exact Cons_nil s
      | _ :: _ => simp [fireLoop] at h
  | succ fuel ih =>
    constructor
    · intro s selfRef obj s' tr o h
      match hp : lookupStore s selfRef with
      | none => simp [keep, hp] at h
      | some (.plain _) => simp [keep, hp] at h
      | some (.plan _) => simp [keep, hp] at h
      | some (.prom p) =>
        simp only [keep, hp] at h
        by_cases hty : some obj.ty ≠ p.obj_type
        · simp [hty] at h
        · rw [if_neg hty] at h
          match hf : fireLoop ap fuel
              (appendQueue (if (lookupStore s p._id).isSome
                then putStore s obj.id (SObj.plain obj) else s) selfRef obj.id)
              p.plans with
          | .error e => rw [hf] at h; simp at h
          | .ok (s3, evs3) =>
            rw [hf] at h
            obtain ⟨rfl, rfl, rfl⟩ : s3 = s' ∧
                ((if (lookupStore s p._id).isSome then [Ev.reg obj.id] else [])
                  ++ [Ev.append selfRef obj.id] ++ evs3) = tr ∧ obj = o := by
              simpa using h
            have hcore := Cons_keep_core obj hp
            have htail := ih.2 _ _ _ _ hf
            simpa [List.append_assoc] using Cons_trans hcore htail
    · intro plans s s' tr h
      match plans with
      | [] =>
        obtain ⟨rfl, rfl⟩ : s = s' ∧ ([] : List Ev) = tr := by
          simpa [fireLoop] using h
        exact Cons_nil s
      | plan_id :: rest =>
        match hpl : lookupStore s plan_id with
        | none => simp [fireLoop, hpl] at h
        | some (.plain _) => simp [fireLoop, hpl] at h
        | some (.prom _) => simp [fireLoop, hpl] at h
        | some (.plan pl) =>
          simp only [fireLoop, hpl] at h
          match hful : has_args_fulfilled s pl with
          | none => simp [hful] at h
          | some false =>
            simp only [hful] at h
            exact ih.2 _ _ _ _ h
          | some true =>
            simp only [hful] at h
            match hfo : fireOne ap s plan_id pl with
            | .error e => simp [hfo] at h
            | .ok (s1, evs1, result) =>
              simp only [hfo] at h
              match hk : keep ap fuel s1 pl.promise_out_id result with
              | .error e => simp [hk] at h
              | .ok (s2, evs2, r2) =>
                simp only [hk] at h
                match hfl : fireLoop ap fuel s2 rest with
                | .error e => simp [hfl] at h
                | .ok (s3, evs3) =>
                  simp only [hfl] at h
                  obtain ⟨rfl, rfl⟩ : s3 = s' ∧ evs1 ++ evs2 ++ evs3 = tr := by
                    simpa using h
                  have c1 := fireOne_cons hfo
                  have c2 := ih.1 _ _ _ _ _ _ hk
                  have c3 := ih.2 _ _ _ _ hfl
                  simpa [List.append_assoc] using Cons_trans (Cons_trans c1 c2) c3

/-! ## Per-position characterisation of a plan firing -/

theorem mapME_get {α β ε : Type} (f : α → Except ε β) :
    ∀ (l : List α) (r : List β), mapME f l = .ok r →
      ∀ i x, l.get? i = some x → ∃ y, f x = .ok y ∧ r.get? i = some y := by
  intro l
  induction l with
  | nil =>
    intro r hr i x hx
    simp at hx
  | cons a rest ih =>
    intro r hr i x hx
    match hfa : f a with
    | .error e => simp [mapME, hfa] at hr
    | .ok y =>
      match hrest : mapME f rest with
      | .error e => simp [mapME, hfa, hrest] at hr
      | .ok ys =>
        have hr' : y :: ys = r := by
          simpa [mapME, hfa, hrest] using hr
        subst hr'
        match i with
        | 0 =>
          simp at hx
          subst hx
          exact ⟨y, hfa, rfl⟩
        | i + 1 =>
          simp only [List.get?_cons_succ] at hx ⊢
          exact ih ys hrest i x hx

/-- Each promised argument position of a firing plan is read from the
object stored under the *front* of the referenced promise's fulfilled
queue. -/
theorem collectArgs_front {s : Store} {pl : PlanData} {args : List SObj}
    (h : collectArgs s pl = .ok args) :
    ∀ i pid, pl.promised_args.lookup i = some pid → i < pl.arg_ids.length →
      ∃ pr front o, lookupStore s pid = some (.prom pr) ∧
        pr.queue_obj_ids.head? = some front ∧
        lookupStore s front = some o ∧
        args.get? i = some o := by
  intro i pid hpid hi
  obtain ⟨x, hx⟩ : ∃ x, pl.arg_ids.get? i = some x := by
    exact List.get?_eq_get hi ▸ ⟨_, rfl⟩
  have henum : pl.arg_ids.enum.get? i = some (i, x) := by
    rw [List.get?_enum, hx]
    rfl
  obtain ⟨y, hy, hry⟩ := mapME_get _ _ _ h i (i, x) henum
  refine ?_
  simp only [hpid] at hy
  match hpr : lookupStore s pid with
  | none => simp [hpr] at hy
  | some (.plain _) => simp [hpr] at hy
  | some (.plan _) => simp [hpr] at hy
  | some (.prom pr) =>
    simp only [hpr] at hy
    match hfront : pr.queue_obj_ids.head? with
    | none => simp [hfront] at hy
    | some front =>
      simp only [hfront] at hy
      match ho : lookupStore s front with
      | none => simp [ho] at hy
      | some o =>
        simp only [ho] at hy
        have : o = y := by simpa using hy
        subst this
        exact ⟨pr, front, o, rfl, hfront, ho, hry⟩

/-- Store keys that are not popped from and not equal to any popped front
are preserved by `popConsumed`. -/
theorem popConsumed_preserve :
    ∀ (vals : List Nat) (s s' : Store) (evs : List Ev),
      popConsumed s vals = .ok (s', evs) → vals.Nodup →
      ∀ k, k ∉ vals →
      (∀ v ∈ vals, ∀ pr, lookupStore s v = some (.prom pr) →
        ∀ f, pr.queue_obj_ids.head? = some f → f ≠ k) →
      lookupStore s' k = lookupStore s k := by
  intro vals
  induction vals with
  | nil =>
    intro s s' evs h _ k _ _
    obtain ⟨rfl, rfl⟩ : s = s' ∧ ([] : List Ev) = evs := by
      simpa [popConsumed] using h
    rfl
  | cons v0 rest ih =>
    intro s s' evs h hnd k hk hfr
    match hpr : lookupStore s v0 with
    | none => simp [popConsumed, hpr] at h
    | some (.plain o') => simp [popConsumed, hpr] at h
    | some (.plan pl) => simp [popConsumed, hpr] at h
    | some (.prom pr0) =>
      match hq : pr0.queue_obj_ids with
      | [] => simp [popConsumed, hpr, hq] at h
      | t0 :: q0 =>
        simp only [popConsumed, hpr, hq] at h
        match hrec : popConsumed (rmStore (putStore s v0
            (SObj.prom { pr0 with queue_obj_ids := q0 })) t0) rest with
        | .error e => simp [hrec] at h
        | .ok (s'', evs'') =>
          simp only [hrec] at h
          obtain ⟨rfl, rfl⟩ :
              s'' = s' ∧ Ev.pop v0 t0 :: Ev.rm t0 :: evs'' = evs := by
            simpa using h
          have hv0k : v0 ≠ k := fun hc => hk (hc ▸ List.mem_cons_self v0 rest)
          have ht0k : t0 ≠ k :=
            hfr v0 (List.mem_cons_self v0 rest) pr0 hpr t0 (by rw [hq]; rfl)
          have hs2k : lookupStore (rmStore (putStore s v0
              (SObj.prom { pr0 with queue_obj_ids := q0 })) t0) k
              = lookupStore s k := by
            rw [lookupStore_rmStore_ne _ _ _ ht0k,
              lookupStore_putStore_ne _ _ _ _ hv0k]
          have hv0rest : v0 ∉ rest := (List.nodup_cons.mp hnd).1
          have hkrest : k ∉ rest := fun hc => hk (List.mem_cons_of_mem _ hc)
          have hfr2 : ∀ v ∈ rest, ∀ pr,
              lookupStore (rmStore (putStore s v0
                (SObj.prom { pr0 with queue_obj_ids := q0 })) t0) v
                = some (.prom pr) →
              ∀ f, pr.queue_obj_ids.head? = some f → f ≠ k := by
            intro v hv prv hprv f hf
            by_cases hvt0 : t0 = v
            · subst hvt0
              rw [lookupStore_rmStore_self] at hprv
              exact absurd hprv (by simp)
            · have hvv0 : v0 ≠ v := fun hc => hv0rest (hc ▸ hv)
              rw [lookupStore_rmStore_ne _ _ _ hvt0,
                lookupStore_putStore_ne _ _ _ _ hvv0] at hprv
              exact hfr v (List.mem_cons_of_mem _ hv) prv hprv f hf
          rw [ih _ _ _ hrec (List.nodup_cons.mp hnd).2 k hkrest hfr2]
          exact hs2k

/-- A key absent from the store and not among the popped promises stays
absent through `popConsumed`. -/
theorem popConsumed_none :
    ∀ (vals : List Nat) (s s' : Store) (evs : List Ev),
      popConsumed s vals = .ok (s', evs) →
      ∀ k, k ∉ vals → lookupStore s k = none → lookupStore s' k = none := by
  intro vals
  induction vals with
  | nil =>
    intro s s' evs h k _ hk
    obtain ⟨rfl, rfl⟩ : s = s' ∧ ([] : List Ev) = evs := by
      simpa [popConsumed] using h
    exact hk
  | cons v0 rest ih =>
    intro s s' evs h k hkmem hk
    match hpr : lookupStore s v0 with
    | none => simp [popConsumed, hpr] at h
    | some (.plain o') => simp [popConsumed, hpr] at h
    | some (.plan pl) => simp [popConsumed, hpr] at h
    | some (.prom pr0) =>
      match hq : pr0.queue_obj_ids with
      | [] => simp [popConsumed, hpr, hq] at h
      | t0 :: q0 =>
        simp only [popConsumed, hpr, hq] at h
        match hrec : popConsumed (rmStore (putStore s v0
            (SObj.prom { pr0 with queue_obj_ids := q0 })) t0) rest with
        | .error e => simp [hrec] at h
        | .ok (s'', evs'') =>
          simp only [hrec] at h
          obtain ⟨rfl, rfl⟩ :
              s'' = s' ∧ Ev.pop v0 t0 :: Ev.rm t0 :: evs'' = evs := by
            simpa using h
          have hv0k : v0 ≠ k := fun hc => hkmem (hc ▸ List.mem_cons_self v0 rest)
          have hs2 : lookupStore (rmStore (putStore s v0
              (SObj.prom { pr0 with queue_obj_ids := q0 })) t0) k = none := by
            by_cases ht0k : t0 = k
            · subst ht0k
              exact lookupStore_rmStore_self _ _
            · rw [lookupStore_rmStore_ne _ _ _ ht0k,
                lookupStore_putStore_ne _ _ _ _ hv0k]
              exact hk
          exact ih _ _ _ hrec k (fun hc => hkmem (List.mem_cons_of_mem _ hc)) hs2

/-- Destructive queue consumption of a firing: each promise referenced by
a promised argument position has the front of its queue popped, and the
popped object is removed from the owner's store.  `hsep` rules out the
degenerate aliasing where a consumed object id is itself one of the popped
promise keys. -/
theorem popConsumed_pops :
    ∀ (vals : List Nat) (s s' : Store) (evs : List Ev),
      popConsumed s vals = .ok (s', evs) → vals.Nodup → FrontsSep s vals →
      ∀ pid pr front q, pid ∈ vals →
        lookupStore s pid = some (.prom pr) →
        pr.queue_obj_ids = front :: q →
        (∃ pr', lookupStore s' pid = some (.prom pr') ∧
          pr'.queue_obj_ids = q) ∧
        lookupStore s' front = none := by
  intro vals
  induction vals with
  | nil =>
    intro s s' evs h _ _ pid pr front q hmem
    exact absurd hmem (List.not_mem_nil pid)
  | cons v0 rest ih =>
    intro s s' evs h hnd hsep pid pr front q hmem hpid hq
    match hpr : lookupStore s v0 with
    | none => simp [popConsumed, hpr] at h
    | some (.plain o') => simp [popConsumed, hpr] at h
    | some (.plan pl) => simp [popConsumed, hpr] at h
    | some (.prom pr0) =>
      match hq0 : pr0.queue_obj_ids with
      | [] => simp [popConsumed, hpr, hq0] at h
      | t0 :: q0 =>
        simp only [popConsumed, hpr, hq0] at h
        match hrec : popConsumed (rmStore (putStore s v0
            (SObj.prom { pr0 with queue_obj_ids := q0 })) t0) rest with
        | .error e => simp [hrec] at h
        | .ok (s'', evs'') =>
          simp only [hrec] at h
          obtain ⟨rfl, rfl⟩ :
              s'' = s' ∧ Ev.pop v0 t0 :: Ev.rm t0 :: evs'' = evs := by
            simpa using h
          have hv0rest : v0 ∉ rest := (List.nodup_cons.mp hnd).1
          have ht0mem : t0 ∉ v0 :: rest :=
            hsep v0 (List.mem_cons_self v0 rest) pr0 hpr t0 (by rw [hq0]; rfl)
          have ht0v0 : t0 ≠ v0 := fun hc => ht0mem (hc ▸ List.mem_cons_self v0 rest)
          -- the store after the first pop-and-remove step
          have hs2v0 : lookupStore (rmStore (putStore s v0
              (SObj.prom { pr0 with queue_obj_ids := q0 })) t0) v0
              = some (.prom { pr0 with queue_obj_ids := q0 }) := by
            rw [lookupStore_rmStore_ne _ _ _ ht0v0, lookupStore_putStore_self]
          have hs2_rest : ∀ v ∈ rest,
              lookupStore (rmStore (putStore s v0
                (SObj.prom { pr0 with queue_obj_ids := q0 })) t0) v
              = lookupStore s v := by
            intro v hv
            have hvv0 : v0 ≠ v := fun hc => hv0rest (hc ▸ hv)
            have hvt0 : t0 ≠ v := fun hc => ht0mem (hc ▸ List.mem_cons_of_mem _ hv)
            rw [lookupStore_rmStore_ne _ _ _ hvt0,
              lookupStore_putStore_ne _ _ _ _ hvv0]
          rcases List.mem_cons.mp hmem with hpidv0 | hpidrest
          · -- the popped promise is the head of `vals`
            subst hpidv0
            have hpr0pr : pr0 = pr := by
              rw [hpid] at hpr
              simpa using hpr.symm
            subst hpr0pr
            have hfq : t0 = front ∧ q0 = q := by
              rw [hq0] at hq
              exact ⟨(List.cons.injEq _ _ _ _).mp hq |>.1,
                (List.cons.injEq _ _ _ _).mp hq |>.2⟩
            obtain ⟨rfl, rfl⟩ := hfq
            constructor
            · refine ⟨{ pr0 with queue_obj_ids := q0 }, ?_, rfl⟩
              rw [popConsumed_preserve rest _ _ _ hrec
                (List.nodup_cons.mp hnd).2 pid hv0rest ?_]
              · exact hs2v0
              · intro v hv prv hprv f hf
                rw [hs2_rest v hv] at hprv
                intro hc
                exact (hsep v (List.mem_cons_of_mem _ hv) prv hprv f hf)
                  (hc ▸ List.mem_cons_self pid rest)
            · have ht0rest : t0 ∉ rest :=
                fun hc => ht0mem (List.mem_cons_of_mem _ hc)
              exact popConsumed_none rest _ _ _ hrec t0 ht0rest
                (lookupStore_rmStore_self _ _)
          · -- the popped promise is in the tail of `vals`
            have hpid2 : lookupStore (rmStore (putStore s v0
                (SObj.prom { pr0 with queue_obj_ids := q0 })) t0) pid
                = some (.prom pr) := by
              rw [hs2_rest pid hpidrest]
              exact hpid
            have hsep2 : FrontsSep (rmStore (putStore s v0
                (SObj.prom { pr0 with queue_obj_ids := q0 })) t0) rest := by
              intro v hv prv hprv f hf
              rw [hs2_rest v hv] at hprv
              intro hc
              exact (hsep v (List.mem_cons_of_mem _ hv) prv hprv f hf)
                (List.mem_cons_of_mem _ hc)
            exact ih _ _ _ hrec (List.nodup_cons.mp hnd).2 hsep2
              pid pr front q hpidrest hpid2 hq

/-! ## Protocol-execution loop lemmas -/

theorem runActions_false {V A : Type} (ea : PhMap V → A → Option (PhMap V)) :
    ∀ (acts : List A) (phs : PhMap V) (idx : Nat) (phs' : PhMap V) (idx' : Nat),
      runActions ea acts phs idx = (phs', idx', false) →
      idx ≤ idx' ∧ idx' - idx < acts.length ∧
        ∃ a, acts.get? (idx' - idx) = some a ∧ ea phs' a = none := by
  intro acts
  induction acts with
  | nil =>
    intro phs idx phs' idx' h
    simp [runActions] at h
  | cons a rest ih =>
    intro phs idx phs' idx' h
    match hea : ea phs a with
    | none =>
      obtain ⟨rfl, rfl⟩ : phs = phs' ∧ idx = idx' := by
        simpa [runActions, hea] using h
      exact ⟨Nat.le_refl _, by simp, a, by simp, hea⟩
    | some phs2 =>
      simp only [runActions, hea] at h
      obtain ⟨hle, hlt, b, hb, heb⟩ := ih phs2 (idx + 1) phs' idx' h
      refine ⟨by omega, by simp; omega, b, ?_, heb⟩
      obtain ⟨k, hk⟩ : ∃ k, idx' - idx = k + 1 := ⟨idx' - (idx + 1), by omega⟩
      rw [hk, List.get?_cons_succ]
      have : idx' - (idx + 1) = k := by omega
      rw [← this]
      exact hb

theorem runActions_true {V A : Type} (ea : PhMap V → A → Option (PhMap V)) :
    ∀ (acts : List A) (phs : PhMap V) (idx : Nat) (phs' : PhMap V) (idx' : Nat),
      runActions ea acts phs idx = (phs', idx', true) →
      idx' = idx + acts.length := by
  intro acts
  induction acts with
  | nil =>
    intro phs idx phs' idx' h
    obtain ⟨-, rfl, -⟩ : phs = phs' ∧ idx = idx' ∧ True := by
      simpa [runActions] using h
    simp
  | cons a rest ih =>
    intro phs idx phs' idx' h
    match hea : ea phs a with
    | none => simp [runActions, hea] at h
    | some phs2 =>
      simp only [runActions, hea] at h
      have := ih phs2 (idx + 1) phs' idx' h
      simp [this]
      omega

/-! # Claim theorems -/

/-- C1: the claim says every entry of the positional *and keyword*
arguments of a remote invocation is resolved by the uniform pointer rule
before the method is called.  The code never reads `msg.kwargs` (the line
loading it is commented out and the step-1c loop iterates an always-empty
dict), so `process` is invariant under arbitrary changes to the message's
keyword arguments; concretely, a message carrying a keyword argument that
is a pointer to an id absent from the store still succeeds (a resolution
would have failed with `NotFound`), and the dispatched method observes an
empty kwargs dict (result 99, not 100). -/
theorem C1_kwargs_never_resolved :
    (∀ (V : Type) (node : NodeState V) (msg : RunClassMethodMessage V)
      (kws : List (String × ArgVal V)),
      process node { msg with kwargs := kws } = process node msg) ∧
    lookupStore nodeKw.store 999 = none ∧
    process nodeKw msgKw =
      .ok { nodeKw with store := putStore nodeKw.store 3 99 } := by
  refine ⟨?_, rfl, rfl⟩
  intro V node msg kws
  rfl

/-- C5: a `NotFound` resolution failure of the receiver or of any
positional argument aborts the invocation with the node state exactly as
before (the result is never stored), and a successful resolution stores
the method's return value under the message's `id_at_location` with
overwrite semantics. -/
theorem C5_notfound_propagates_and_result_stored :
    ∀ (V : Type) (node : NodeState V) (msg : RunClassMethodMessage V),
      (∀ a e, resolveArg node.store a = .error e →
        e = Err.notFound ∧ ∃ loc idAt, a = .ptr loc idAt ∧
          lookupStore node.store idAt = none) ∧
      (∀ e, resolveArg node.store msg._self = .error e →
        process node msg = .error (e, node)) ∧
      (∀ sv e, resolveArg node.store msg._self = .ok sv →
        mapME (resolveArg node.store) msg.args = .error e →
        process node msg = .error (e, node)) ∧
      (∀ sv avs, resolveArg node.store msg._self = .ok sv →
        mapME (resolveArg node.store) msg.args = .ok avs →
        process node msg =
          .ok { node with
                store := putStore node.store msg.id_at_location
                  (node.frameworks msg.path sv avs []) } ∧
        lookupStore (putStore node.store msg.id_at_location
            (node.frameworks msg.path sv avs [])) msg.id_at_location =
          some (node.frameworks msg.path sv avs [])) := by
  intro V node msg
  refine ⟨?_, ?_, ?_, ?_⟩
  · intro a e h
    match a with
    | .obj o => simp [resolveArg] at h
    | .ptr loc idAt =>
      match hl : lookupStore node.store idAt with
      | some o => simp [resolveArg, hl] at h
      | none =>
        have he : Err.notFound = e := by
          simpa [resolveArg, hl] using h
        exact ⟨he.symm, loc, idAt, rfl, hl⟩
  · intro e h
    simp [process, h]
  · intro sv e h1 h2
    simp [process, h1, h2]
  · intro sv avs h1 h2
    exact ⟨by simp [process, h1, h2], lookupStore_putStore_self _ _ _⟩

/-- Witness for C5: a receiver pointing at the absent id 999 fails with
`NotFound` and leaves the node untouched; the well-formed message `msgKw`
stores the dispatch result under id 3. -/
theorem C5_witness :
    process nodeKw msgNF = .error (Err.notFound, nodeKw) ∧
    process nodeKw msgKw =
      .ok { nodeKw with
            store := putStore nodeKw.store msgKw.id_at_location
              (nodeKw.frameworks msgKw.path 1 [42] []) } :=
  ⟨(C5_notfound_propagates_and_result_stored Nat nodeKw msgNF).2.1
      Err.notFound rfl,
   ((C5_notfound_propagates_and_result_stored Nat nodeKw msgKw).2.2.2
      1 [42] rfl rfl).1⟩

/-- C2 counterexample: the claim says `keep` registers `obj` in the
owner's store first *if it is not already present there*.  In the state
`sK` the object 9 is absent from the store, yet a type-correct
`keep` succeeds without registering it (the source registers only when
`self.id`, here 1, is a key of the store). -/
theorem C2_counterexample :
    lookupStore sK 9 = none ∧
    keep apNone 2 sK 5 ⟨9, 0⟩ =
      .ok ([(5, .prom { prK with queue_obj_ids := [9] })],
        [Ev.append 5 9], ⟨9, 0⟩) ∧
    lookupStore [(5, SObj.prom { prK with queue_obj_ids := [9] })] 9 = none :=
  ⟨rfl, rfl, rfl⟩

/-- C2 (amended): for a type-correct `keep(promise, obj)`, `keep` appends
`obj.id` to the promise's fulfilled queue and returns the original `obj`;
it registers `obj` in the owner's store exactly when the promise's own id
is a key of the store (regardless of whether `obj` is already present).
Stated for a promise with no waiting plans and `obj.id` distinct from the
promise's store key, so the final state is keep's own mutation. -/
theorem C2_keep_appends_registers_returns :
    ∀ (ap : PlanData → List SObj → PlainObj) (fuel : Nat) (s : Store)
      (selfRef : Nat) (p : PromiseData) (obj : PlainObj),
      lookupStore s selfRef = some (.prom p) →
      some obj.ty = p.obj_type →
      p.plans = [] →
      obj.id ≠ selfRef →
      ∃ s' tr, keep ap (fuel + 1) s selfRef obj = .ok (s', tr, obj) ∧
        lookupStore s' selfRef =
          some (.prom
            { p with queue_obj_ids := p.queue_obj_ids ++ [obj.id] }) ∧
        ((lookupStore s p._id).isSome = true →
          lookupStore s' obj.id = some (.plain obj)) ∧
        (lookupStore s p._id = none →
          lookupStore s' obj.id = lookupStore s obj.id) := by
  intro ap fuel s selfRef p obj hp hty hplans hobj
  have hty' : ¬ some obj.ty ≠ p.obj_type := by simp [hty]
  by_cases hreg : (lookupStore s p._id).isSome
  · have hs1 : lookupStore (putStore s obj.id (SObj.plain obj)) selfRef
        = some (.prom p) := by
      rw [lookupStore_putStore_ne _ _ _ _ hobj, hp]
    simp only [keep, hp, if_neg hty', hreg, if_true,
      appendQueue_of_prom hs1, hplans, fireLoop]
    refine ⟨_, _, rfl, ?_, ?_, ?_⟩
    · rw [lookupStore_putStore_self]
    · intro _
      rw [lookupStore_putStore_ne _ _ _ _ (Ne.symm hobj),
        lookupStore_putStore_self]
    · intro hnone
      rw [hnone] at hreg
      simp at hreg
  · have hreg' : (lookupStore s p._id).isSome = false := by simpa using hreg
    simp only [keep, hp, if_neg hty', hreg', Bool.false_eq_true, if_false,
      appendQueue_of_prom hp, hplans, fireLoop]
    refine ⟨_, _, rfl, ?_, ?_, ?_⟩
    · rw [lookupStore_putStore_self]
    · intro hcontra
      exact hcontra.elim
    · intro _
      rw [lookupStore_putStore_ne _ _ _ _ (Ne.symm hobj)]

/-- Witness for C2 (amended): keeping the object 9 on the promise stored
at key 5 (whose own id 1 is absent from the store) appends 9 to the queue,
returns the object, and performs no registration. -/
theorem C2_witness :
    ∃ s' tr, keep apNone 1 sK 5 ⟨9, 0⟩ = .ok (s', tr, ⟨9, 0⟩) ∧
      lookupStore s' 5 =
        some (.prom { prK with queue_obj_ids := prK.queue_obj_ids ++ [9] }) ∧
      ((lookupStore sK prK._id).isSome = true →
        lookupStore s' 9 = some (.plain ⟨9, 0⟩)) ∧
      (lookupStore sK prK._id = none →
        lookupStore s' 9 = lookupStore sK 9) :=
  C2_keep_appends_registers_returns apNone 0 sK 5 prK ⟨9, 0⟩ rfl rfl rfl
    (by decide)

/-- C4: `keep` with an object whose declared type differs from the
promise's `obj_type` raises the type-mismatch error before any mutation:
the state carried by the error is exactly the input state (queue and
store untouched). -/
theorem C4_keep_type_mismatch_no_mutation :
    ∀ (ap : PlanData → List SObj → PlainObj) (fuel : Nat) (s : Store)
      (selfRef : Nat) (p : PromiseData) (obj : PlainObj),
      lookupStore s selfRef = some (.prom p) →
      some obj.ty ≠ p.obj_type →
      keep ap (fuel + 1) s selfRef obj = .error (.typeMismatch, s) := by
  intro ap fuel s selfRef p obj hp hty
  simp [keep, hp, hty]

/-- Witness for C4: keeping a type-3 object on the type-0 promise of `sK`
fails with the type mismatch and returns the untouched store. -/
theorem C4_witness :
    keep apNone 1 sK 5 ⟨9, 3⟩ = .error (Err.typeMismatch, sK) :=
  C4_keep_type_mismatch_no_mutation apNone 0 sK 5 prK ⟨9, 3⟩ rfl (by decide)

/-- C3: plan firings triggered inside `keep` consume promise fulfillments
destructively and at most once.  (1) Any successful `keep` cascade
satisfies the FIFO conservation relation `Cons`: every untouched promise's
final queue is its initial queue plus the appends, with the pops dropped
from the front — each queued fulfillment feeds at most one pop, so no plan
fires twice for the same fulfillment.  (2) Argument collection reads each
promised position from the object stored under the *front* of the
referenced promise's queue.  (3) After the firing, each referenced
promise's front entry is popped and the popped object is removed from the
store. -/
theorem C3_firing_consumes_fulfillments_once
    (ap : PlanData → List SObj → PlainObj) :
    (∀ fuel s selfRef obj s' tr o,
      keep ap fuel s selfRef obj = .ok (s', tr, o) → Cons s s' tr) ∧
    (∀ s pl args, collectArgs s pl = .ok args →
      ∀ i pid, pl.promised_args.lookup i = some pid →
        i < pl.arg_ids.length →
        ∃ pr front o, lookupStore s pid = some (.prom pr) ∧
          pr.queue_obj_ids.head? = some front ∧
          lookupStore s front = some o ∧ args.get? i = some o) ∧
    (∀ vals s s' evs, popConsumed s vals = .ok (s', evs) →
      vals.Nodup → FrontsSep s vals →
      ∀ pid pr front q, pid ∈ vals →
        lookupStore s pid = some (.prom pr) →
        pr.queue_obj_ids = front :: q →
        (∃ pr', lookupStore s' pid = some (.prom pr') ∧
          pr'.queue_obj_ids = q) ∧
        lookupStore s' front = none) :=
  ⟨fun fuel _ _ _ _ _ _ h => (keep_fireLoop_cons ap fuel).1 _ _ _ _ _ _ h,
   fun _ _ _ h => collectArgs_front h,
   popConsumed_pops⟩

/-- Witness for C3: the full cascade on `sW` (register, append, fire plan
77, pop-and-remove, keep the result on promise 6) satisfies conservation;
on the kept state `sC`, the plan's promised position 0 reads the object 9
stored under the front of promise 5's queue; and consuming `[5]` pops the
front and removes object 9 from the store. -/
theorem C3_witness :
    Cons sW
      [(6, .prom ⟨none, 6, none, [11], some 1, []⟩),
        (11, .plain ⟨11, 1⟩),
        (5, .prom ⟨none, 5, none, [], some 0, [77]⟩),
        (77, .plan plW)]
      [Ev.reg 9, Ev.append 5 9, Ev.fired 77, Ev.pop 5 9, Ev.rm 9,
        Ev.reg 11, Ev.append 6 11] ∧
    (∃ pr front o, lookupStore sC 5 = some (.prom pr) ∧
      pr.queue_obj_ids.head? = some front ∧
      lookupStore sC front = some o ∧
      [SObj.plain ⟨9, 0⟩].get? 0 = some o) ∧
    ((∃ pr', lookupStore [(5, SObj.prom { prP with queue_obj_ids := [] })] 5
        = some (.prom pr') ∧ pr'.queue_obj_ids = []) ∧
      lookupStore [(5, SObj.prom { prP with queue_obj_ids := [] })] 9 = none) := by
  refine ⟨?_, ?_, ?_⟩
  · exact (C3_firing_consumes_fulfillments_once apW).1 4 sW 5 ⟨9, 0⟩ _ _ _ rfl
  · exact (C3_firing_consumes_fulfillments_once apW).2.1 sC plW
      [SObj.plain ⟨9, 0⟩] rfl 0 5 rfl (by decide)
  · refine (C3_firing_consumes_fulfillments_once apW).2.2 [5] sC _ _ rfl
      (by simp) ?_ 5 { prP with queue_obj_ids := [9] } 9 [] (by simp) rfl rfl
    intro v hv pr hpr f hf
    have hv5 : v = 5 := by simpa using hv
    subst hv5
    have hpr' : pr = { prP with queue_obj_ids := [9] } := by
      have : some (SObj.prom { prP with queue_obj_ids := [9] })
          = some (SObj.prom pr) := by
        rw [← hpr]; rfl
      simpa using this.symm
    subst hpr'
    have hf9 : f = 9 := by simpa using hf.symm
    subst hf9
    decide

/-- C8: `value()` is a non-blocking poll: on an empty queue it returns no
value with the state unchanged; on a non-empty queue it pops the front id,
removes the object stored under it, and returns that object. -/
theorem C8_value_nonblocking_poll :
    ∀ (s : Store) (selfRef : Nat) (p : PromiseData),
      lookupStore s selfRef = some (.prom p) →
      (p.queue_obj_ids = [] → value s selfRef = .ok (s, none)) ∧
      (∀ h t ret, p.queue_obj_ids = h :: t → h ≠ selfRef →
        lookupStore s h = some ret →
        ∃ s', value s selfRef = .ok (s', some ret) ∧
          lookupStore s' h = none ∧
          lookupStore s' selfRef =
            some (.prom { p with queue_obj_ids := t })) := by
  intro s selfRef p hp
  constructor
  · intro hq
    simp [value, hp, hq]
  · intro h t ret hq hne hret
    have hs1 : lookupStore (putStore s selfRef
        (SObj.prom { p with queue_obj_ids := t })) h = some ret := by
      rw [lookupStore_putStore_ne _ _ _ _ (Ne.symm hne)]
      exact hret
    simp only [value, hp, hq, hs1]
    refine ⟨_, rfl, ?_, ?_⟩
    · exact lookupStore_rmStore_self _ _
    · rw [lookupStore_rmStore_ne _ _ _ hne, lookupStore_putStore_self]

/-- Witness for C8: polling the unkept promise of `sK` yields no value
and leaves the store unchanged; polling the kept promise of `sC` pops the
front id 9, removes object 9, and returns it. -/
theorem C8_witness :
    value sK 5 = .ok (sK, none) ∧
    ∃ s', value sC 5 = .ok (s', some (.plain ⟨9, 0⟩)) ∧
      lookupStore s' 9 = none ∧
      lookupStore s' 5 = some (.prom ⟨none, 5, none, [], some 0, [77]⟩) :=
  ⟨(C8_value_nonblocking_poll sK 5 prK rfl).1 rfl,
   (C8_value_nonblocking_poll sC 5 { prP with queue_obj_ids := [9] } rfl).2
      9 [] (.plain ⟨9, 0⟩) rfl (by decide) rfl⟩

/-- C6: when the remaining-actions loop is blocked (an action raised
`PlaceholderNotInstantiatedError`), `execute` returns `(false, none)`
without raising, and the cursor stops exactly at the blocked action — it
is a position of the action list whose step function still fails on the
returned placeholder state. -/
theorem C6_execute_blocked_stops_at_action :
    ∀ (V A : Type) (ea : PhMap V → A → Option (PhMap V)) (role : Role V A)
      (st : ExecSt V) (phs' : PhMap V) (idx' : Nat),
      runActions ea (role.actions.drop st.idx) st.phs st.idx
        = (phs', idx', false) →
      execute ea role st = some (⟨phs', idx'⟩, false, none) ∧
      st.idx ≤ idx' ∧ idx' < role.actions.length ∧
      ∃ a, role.actions.get? idx' = some a ∧ ea phs' a = none := by
  intro V A ea role st phs' idx' h
  obtain ⟨hle, hlt, a, ha, hea⟩ := runActions_false ea _ _ _ _ _ h
  rw [List.length_drop] at hlt
  refine ⟨by simp [execute, h], hle, by omega, a, ?_, hea⟩
  rw [List.get?_drop] at ha
  have : st.idx + (idx' - st.idx) = idx' := by omega
  rwa [this] at ha

/-- Witness for C6: running `roleW` from the start executes action 0,
blocks on action 1, and `execute` reports `(false, none)` with the cursor
at index 1. -/
theorem C6_witness :
    execute eaW roleW (initExec roleW) = some (⟨[], 1⟩, false, none) ∧
    (initExec roleW).idx ≤ 1 ∧ 1 < roleW.actions.length ∧
    ∃ a, roleW.actions.get? 1 = some a ∧ eaW [] a = none :=
  C6_execute_blocked_stops_at_action Nat Nat eaW roleW (initExec roleW)
    [] 1 rfl

/-- C7: with the cursor at the end of the action list, `execute` runs zero
actions, leaves the state unchanged, and returns `(true, none)` when there
are no declared outputs, otherwise `(true, tuple of the output
placeholders' bound values)`; re-invoking `execute` on the returned state
is the very same call and produces the same completion result. -/
theorem C7_execute_completed_idempotent :
    ∀ (V A : Type) (ea : PhMap V → A → Option (PhMap V)) (role : Role V A)
      (st : ExecSt V) (outPhs : List (Placeholder V)),
      st.idx = role.actions.length →
      mapMO (lookupStore st.phs) role.output_placeholder_ids = some outPhs →
      execute ea role st = some (st, true,
        if role.output_placeholder_ids = [] then none
        else some (outPhs.map (·.child))) ∧
      (∀ r, execute ea role st = some r → execute ea role r.1 = some r) := by
  intro V A ea role st outPhs hidx hout
  have hdrop : role.actions.drop st.idx = [] := by
    rw [hidx]
    exact List.drop_length _
  have hrun : runActions ea (role.actions.drop st.idx) st.phs st.idx
      = (st.phs, st.idx, true) := by
    rw [hdrop]
    rfl
  have hexec : execute ea role st = some (st, true,
      if role.output_placeholder_ids = [] then none
      else some (outPhs.map (·.child))) := by
    by_cases hempty : role.output_placeholder_ids = []
    · simp [execute, hrun, hempty]
    · simp [execute, hrun, hempty, hout]
  refine ⟨hexec, ?_⟩
  intro r hr
  rw [hexec] at hr
  have hr' : r = (st, true,
      if role.output_placeholder_ids = [] then none
      else some (outPhs.map (·.child))) := by
    simpa using hr.symm
  subst hr'
  exact hexec

/-- Witness for C7: `stW2` has its cursor at the end of `roleW2`'s empty
action list; `execute` returns `(true, (7))` and is idempotent on the
returned state. -/
theorem C7_witness :
    execute eaW roleW2 stW2 = some (stW2, true,
      if roleW2.output_placeholder_ids = [] then none
      else some ([(⟨4, some 7⟩ : Placeholder Nat)].map (·.child))) ∧
    (∀ r, execute eaW roleW2 stW2 = some r → execute eaW roleW2 r.1 = some r) :=
  C7_execute_completed_idempotent Nat Nat eaW roleW2 stW2
    [⟨4, some 7⟩] rfl rfl

/-- C9: the claim says `simplify` produces `(id, obj_type, plans)` and
`detail` inverts it.  In the source, `simplify` reads `promise.obj_id`,
an attribute `__init__` never assigns, so it raises `AttributeError` on
every constructed promise; and `detail` reads `promise_tuple[3]` of the
3-element tuple, an `IndexError` — the round trip can never succeed
(the source's own docstring claims `detail` inverts `simplify`). -/
theorem C9_simplify_detail_roundtrip_impossible :
    simplify (fun _ => 0)
      (mkPromise 0 none (some 1) (some 2) (some 3) (some [4]))
      = .error .attributeError ∧
    detail 0 [10, 20, 30] = .error .indexError :=
  ⟨rfl, rfl⟩

/-- C10: the `obj_id` argument of `Promise.__init__` is discarded — two
constructions differing only in `obj_id` build the same instance, the
instance carries no `obj_id` attribute, and both the serializer
`simplify` and the string conversion read `promise.obj_id` and therefore
fail with `AttributeError` on every constructed promise. -/
theorem C10_constructor_discards_obj_id :
    ∀ (idp : Nat) (owner : Option Nat) (id obj_id obj_id' : Option Nat)
      (ty : Option Nat) (pls : Option (List Nat)),
      mkPromise idp owner id obj_id ty pls
        = mkPromise idp owner id obj_id' ty pls ∧
      (mkPromise idp owner id obj_id ty pls).obj_id = none ∧
      (∀ sp, simplify sp (mkPromise idp owner id obj_id ty pls)
        = .error .attributeError) ∧
      strPromise (mkPromise idp owner id obj_id ty pls)
        = .error .attributeError :=
  fun _ _ _ _ _ _ _ => ⟨rfl, rfl, fun _ => rfl, rfl⟩

end PySyft
